import Mathlib

/-!
# Shallow embedding of `src/libt.c` (libet timer library)

The C library keeps two intrusive doubly-linked lists of `struct timer`
records in a process-wide singleton `s`:

* `s.timers`    — the Pending queue, kept sorted by `wakeup` (non-decreasing);
* `s.tmptimers` — the InFlight holding list used during `libt_flush`.

We model a record (`struct timer`) as a `Timer` carrying a ghost allocation
id `tid` (standing for the identity of the `malloc`ed record, so that "the
same record" and "freed exactly once" are statable), the callback identity
`fn`, the user data `dat` (both opaque pointers in C, modelled as `Nat`),
and the `double wakeup`, modelled as `ℚ` (exact arithmetic idealisation of
the IEEE double; all operations used — add, subtract, multiply, compare,
`fmod` — are modelled exactly).  A NaN `double` argument is modelled as
`Option ℚ = none` (only ever tested via `isnan` before any arithmetic).

The clock `libt_now()` is an external input; every operation that reads the
clock takes the reading as an explicit `now : ℚ` parameter.

Callbacks are modelled semantically: an environment maps a callback
identity `(fn, dat)` and the observed state to a list of API calls (`Act`)
the callback performs.  `libt_flush` additionally records a ghost trace of
the invocations it makes (identity invoked plus the state at the moment of
invocation) and the ghost `freed` log records every `free` of a record, in
order.
-/

set_option maxHeartbeats 1000000

namespace Libt

/-- `struct timer` (src/libt.c:29-34).  `tid` is the ghost identity of the
heap record; `fn`/`dat` are the callback pointer and user data (opaque,
compared only for equality); `wakeup` is the absolute monotonic due time. -/
structure Timer where
  tid : Nat
  fn : Nat
  dat : Nat
  wakeup : ℚ
deriving DecidableEq, Repr

/-- The singleton `s` (src/libt.c:36-39) plus ghost allocation state:
`nextId` is the next fresh record id, `freed` the ordered log of `free`d
record ids. -/
structure LibtState where
  timers : List Timer
  tmptimers : List Timer
  nextId : Nat
  freed : List Nat
deriving DecidableEq, Repr

/-- Zero-initialised global state. -/
def initState : LibtState := ⟨[], [], 0, []⟩

/-- The flag bits of `libt_add_timeoutx`: LIBT_ADD (= CREATE), LIBT_MOD
(= UPDATE), LIBT_RELATIVE, LIBT_REPEAT.  Only membership tests occur in the
source, so a record of four booleans is a faithful model of the bitmask. -/
structure Flags where
  add : Bool
  mod : Bool
  rel : Bool
  rep : Bool
deriving DecidableEq, Repr

/-- The identity test `(t->fn == fn) && (t->dat == dat)` (src/libt.c:95). -/
def idMatch (fn dat : Nat) (t : Timer) : Bool := t.fn == fn && t.dat == dat

/-- `t_del` of a record known by its ghost id: unlink it from a list
(src/libt.c:54-61).  Ghost ids are globally unique, so filtering removes
exactly the one record, as pointer unlinking does. -/
def t_remove (tid : Nat) (l : List Timer) : List Timer :=
  l.filter (fun t => t.tid ≠ tid)

/-- `t_add_sorted` (src/libt.c:78-87): scan until the first element with a
strictly greater `wakeup` and insert before it (after the `t_del`, which the
callers below perform on our side). -/
def t_add_sorted (t : Timer) (l : List Timer) : List Timer :=
  match l with
  | [] => [t]
  | x :: xs => if t.wakeup < x.wakeup then t :: x :: xs else x :: t_add_sorted t xs

/-- `t_find` (src/libt.c:90-103): scan Pending, then InFlight, first match
by `(fn, dat)` identity. -/
def t_find (fn dat : Nat) (s : LibtState) : Option Timer :=
  match s.timers.find? (idMatch fn dat) with
  | some t => some t
  | none => s.tmptimers.find? (idMatch fn dat)

/-- Linux `errno` values used by the library: `-EPERM`, `-ENOENT`,
`-EINVAL`. -/
def EPERM : Int := 1

def ENOENT : Int := 2

def EINVAL : Int := 22

/-- `libt_add_timeoutx` (src/libt.c:121-167).  `wakeuptime = none` models a
NaN argument.  Returns the C return code and the new state.
New-timer branch: requires `LIBT_ADD`, allocates (fresh ghost id), adds
`now` when `LIBT_RELATIVE` or `LIBT_REPEAT` is set, inserts sorted.
Existing-timer branch: requires `LIBT_MOD`; `LIBT_REPEAT` treats the
argument as an increment of the previous wakeup with a past-due reset to
`now + increment`; else `LIBT_RELATIVE` means `now + argument`; else
absolute.  `t_add_sorted` begins with `t_del`, which unlinks the record
from whichever list holds it (Pending or InFlight), hence the `t_remove`
on both lists before the sorted re-insertion into Pending. -/
def libt_add_timeoutx (now : ℚ) (wakeuptime : Option ℚ) (fn dat : Nat) (flags : Flags)
    (s : LibtState) : Int × LibtState :=
  match wakeuptime with
  | none => (-EINVAL, s)
  | some w =>
    match t_find fn dat s with
    | none =>
        if !flags.add then (-ENOENT, s)
        else
          let wk := if flags.rel || flags.rep then w + now else w
          let t : Timer := ⟨s.nextId, fn, dat, wk⟩
          (0, { s with timers := t_add_sorted t s.timers, nextId := s.nextId + 1 })
    | some t =>
        if !flags.mod then (-EPERM, s)
        else
          let wk :=
            if flags.rep then
              let wk := t.wakeup + w
              if wk < now then now + w else wk
            else if flags.rel then w + now
            else w
          let t' : Timer := { t with wakeup := wk }
          (0, { s with timers := t_add_sorted t' (t_remove t.tid s.timers),
                       tmptimers := t_remove t.tid s.tmptimers })

/-- `libt_remove_timeout` (src/libt.c:169-178): find by identity, unlink
(from whichever list), free.  No-op when absent. -/
def libt_remove_timeout (fn dat : Nat) (s : LibtState) : LibtState :=
  match t_find fn dat s with
  | none => s
  | some t =>
      { s with timers := t_remove t.tid s.timers,
               tmptimers := t_remove t.tid s.tmptimers,
               freed := s.freed ++ [t.tid] }

/-- `libt_timeout_exist` (src/libt.c:180-183). -/
def libt_timeout_exist (fn dat : Nat) (s : LibtState) : Bool :=
  (t_find fn dat s).isSome

/-- One API call a callback may perform against the queue while it runs.
Each call that reads the clock carries its own fresh reading. -/
inductive Act where
  | schedule (now : ℚ) (wakeuptime : Option ℚ) (fn dat : Nat) (flags : Flags)
  | cancel (fn dat : Nat)

/-- Semantic callback environment: what the callback with identity
`(fn, dat)` does to the queue, given the state it observes. -/
def Env : Type := Nat → Nat → LibtState → List Act

/-- Effect of one callback-issued API call. -/
def applyAct (s : LibtState) : Act → LibtState
  | .schedule now w fn dat flags => (libt_add_timeoutx now w fn dat flags s).2
  | .cancel fn dat => libt_remove_timeout fn dat s

def runActs (s : LibtState) (acts : List Act) : LibtState :=
  acts.foldl applyAct s

/-- One invocation in the ghost trace of a flush: the identity invoked and
the state at the moment control entered the callback (i.e. after the
`t_add(t, &s.tmptimers)` move). -/
structure TraceEntry where
  fn : Nat
  dat : Nat
  stAt : LibtState
deriving DecidableEq

/-- The dispatch loop of `libt_flush` (src/libt.c:193-204): while the
Pending head is due (`wakeup ≤ now`, where `now` already includes the 1 ms
epsilon), move it to the front of InFlight (`t_add` prepends), run the
callback, count it.  `fuel` bounds the number of iterations (the C loop is
unbounded when callbacks keep scheduling due timers); each theorem below
supplies enough fuel for the loop to reach its real exit. -/
def libt_flush_loop (env : Env) (now : ℚ) : Nat → LibtState → Nat → List TraceEntry →
    Nat × LibtState × List TraceEntry
  | 0, s, cnt, tr => (cnt, s, tr)
  | fuel + 1, s, cnt, tr =>
    match s.timers with
    | [] => (cnt, s, tr)
    | t :: rest =>
        if t.wakeup > now then (cnt, s, tr)
        else
          let s1 : LibtState := { s with timers := rest, tmptimers := t :: s.tmptimers }
          let s2 := runActs s1 (env t.fn t.dat s1)
          libt_flush_loop env now fuel s2 (cnt + 1) (tr ++ [⟨t.fn, t.dat, s1⟩])

/-- `libt_flush` (src/libt.c:185-212): reference time `now + 0.001`, run the
dispatch loop, then sweep: free every record still InFlight (head first)
and clear the list.  Returns the invocation count, final state, and ghost
trace. -/
def libt_flush (env : Env) (now : ℚ) (fuel : Nat) (s : LibtState) :
    Nat × LibtState × List TraceEntry :=
  let out := libt_flush_loop env (now + 1/1000) fuel s 0 []
  (out.1, { out.2.1 with tmptimers := [],
                         freed := out.2.1.freed ++ out.2.1.tmptimers.map Timer.tid },
   out.2.2)

/-- `libt_next_wakeup` (src/libt.c:214-217): `-1` when Pending is empty,
else the head's wakeup. -/
def libt_next_wakeup (s : LibtState) : ℚ :=
  match s.timers with
  | [] => -1
  | t :: _ => t.wakeup

/-- `MAXRESULT = (~0U)/4` (src/libt.c:236) with 32-bit `unsigned int`. -/
def MAXRESULT : Int := 1073741823

/-- C `double → int` conversion and the `(time_t)` cast: truncation toward
zero. -/
def cTrunc (q : ℚ) : ℤ := if q < 0 then -(⌊-q⌋) else ⌊q⌋

/-- `libt_get_waittime` (src/libt.c:219-243): `-1` when Pending is empty;
else `(head.wakeup - now) * 1000` collapsed to `0` when `≤ 0`, clamped to
`MAXRESULT`, and otherwise truncated to `int` by the C return conversion. -/
def libt_get_waittime (now : ℚ) (s : LibtState) : Int :=
  match s.timers with
  | [] => -1
  | t :: _ =>
      let tmp := (t.wakeup - now) * 1000
      if tmp ≤ 0 then 0
      else if tmp > (MAXRESULT : ℚ) then MAXRESULT
      else cTrunc tmp

/-- C `fmod` on our exact rationals: `fmod(x, y) = x - y * trunc(x / y)`
(result carries the sign of `x`). -/
def cfmod (x y : ℚ) : ℚ := x - y * cTrunc (x / y)

/-- `libt_timetointerval4` (src/libt.c:273-304).  The timezone database is
an external input, modelled by `gmtoffAt : ℤ → ℤ` giving `tm_gmtoff` of
`localtime` at an integral (`time_t`-truncated) wall time.  The C function
recurses when the computed delay is below the pad; `fuel` bounds that
recursion depth (`none` = fuel exhausted before the C recursion returned). -/
def libt_timetointerval4 (gmtoffAt : ℤ → ℤ) :
    Nat → ℚ → ℚ → ℚ → ℚ → Option ℚ
  | 0, _, _, _, _ => none
  | fuel + 1, walltime, interval, offset, pad =>
      let pad := if pad < 1/1000 then 1/1000 else pad
      let value :=
        if interval ≥ 3600 * (3/2 : ℚ) then
          let gmtoff := gmtoffAt (cTrunc walltime)
          let value := interval - cfmod (walltime + gmtoff - offset) interval
          let newoff := gmtoffAt (cTrunc (walltime + value))
          if newoff ≠ gmtoff then value + gmtoff - newoff else value
        else
          interval - cfmod (walltime - offset) interval
      if value < pad then
        match libt_timetointerval4 gmtoffAt fuel (walltime + value + pad) interval offset pad with
        | none => none
        | some r => some (value + pad + r)
      else some value

/-- A top-level API call of the application ("every sequence of schedule,
cancel, and flush calls"). -/
inductive Op where
  | schedule (now : ℚ) (wakeuptime : Option ℚ) (fn dat : Nat) (flags : Flags)
  | cancel (fn dat : Nat)
  | flush (env : Env) (now : ℚ) (fuel : Nat)

def runOp (s : LibtState) : Op → LibtState
  | .schedule now w fn dat flags => (libt_add_timeoutx now w fn dat flags s).2
  | .cancel fn dat => libt_remove_timeout fn dat s
  | .flush env now fuel => (libt_flush env now fuel s).2.1

/-- Run a sequence of API calls from the zero-initialised state. -/
def run (ops : List Op) : LibtState :=
  ops.foldl runOp initState

/-- The identity key of a record. -/
def idKey (t : Timer) : Nat × Nat := (t.fn, t.dat)

/-- All records the library currently tracks, Pending first. -/
def allTimers (s : LibtState) : List Timer := s.timers ++ s.tmptimers

/-- Pending is sorted by wakeup, non-decreasing. -/
def timersSorted (l : List Timer) : Prop :=
  l.Pairwise (fun a b => a.wakeup ≤ b.wakeup)

/-- Well-formedness of the library state: identities are unique across
Pending and InFlight, ghost record ids are unique, every live record id is
below the allocation counter, and Pending is sorted. -/
def Inv (s : LibtState) : Prop :=
  ((allTimers s).map idKey).Nodup ∧
  ((allTimers s).map Timer.tid).Nodup ∧
  (∀ t ∈ allTimers s, t.tid < s.nextId) ∧
  timersSorted s.timers

theorem t_add_sorted_perm (t : Timer) (l : List Timer) :
    (t_add_sorted t l).Perm (t :: l) := by
  induction l with
  | nil => simp [t_add_sorted]
  | cons x xs ih =>
      simp only [t_add_sorted]
      split
      · exact List.Perm.refl _
      · exact (List.Perm.cons x ih).trans (List.Perm.swap t x xs)

theorem t_add_sorted_sorted (t : Timer) (l : List Timer) (h : timersSorted l) :
    timersSorted (t_add_sorted t l) := by
  induction l with
  | nil => simp [t_add_sorted, timersSorted]
  | cons x xs ih =>
      rcases h with _ | ⟨hx, hxs⟩
      simp only [t_add_sorted]
      split
      · rename_i hlt
        refine List.Pairwise.cons ?_ (List.Pairwise.cons hx hxs)
        intro b hb
        rcases List.mem_cons.mp hb with rfl | hb
        · exact le_of_lt hlt
        · exact le_of_lt (lt_of_lt_of_le hlt (hx b hb))
      · rename_i hge
        refine List.Pairwise.cons ?_ (ih hxs)
        intro b hb
        rcases List.mem_cons.mp ((t_add_sorted_perm t xs).mem_iff.mp hb) with rfl | hb
        · exact not_lt.mp hge
        · exact hx b hb

theorem t_add_sorted_position (t : Timer) (l : List Timer) :
    t_add_sorted t l =
      l.takeWhile (fun x => !decide (t.wakeup < x.wakeup)) ++
        t :: l.dropWhile (fun x => !decide (t.wakeup < x.wakeup)) := by
  induction l with
  | nil => simp [t_add_sorted]
  | cons x xs ih =>
      simp only [t_add_sorted, List.takeWhile, List.dropWhile]
      by_cases hlt : t.wakeup < x.wakeup
      · simp [hlt]
      · simp [hlt, ih]

theorem t_find_some {fn dat : Nat} {s : LibtState} {t : Timer}
    (h : t_find fn dat s = some t) :
    t ∈ allTimers s ∧ t.fn = fn ∧ t.dat = dat := by
  unfold t_find at h
  have hmatch : ∀ {l : List Timer}, l.find? (idMatch fn dat) = some t →
      t ∈ l ∧ t.fn = fn ∧ t.dat = dat := by
    intro l hl
    have h1 := List.mem_of_find?_eq_some hl
    have h2 := List.find?_some hl
    simp only [idMatch, Bool.and_eq_true, beq_iff_eq] at h2
    exact ⟨h1, h2.1, h2.2⟩
  rcases hfind : s.timers.find? (idMatch fn dat) with _ | t0
  · rw [hfind] at h
    have := hmatch h
    exact ⟨List.mem_append_right _ this.1, this.2⟩
  · rw [hfind] at h
    cases h
    have := hmatch hfind
    exact ⟨List.mem_append_left _ this.1, this.2⟩

theorem t_find_none {fn dat : Nat} {s : LibtState}
    (h : t_find fn dat s = none) :
    ∀ t ∈ allTimers s, ¬(t.fn = fn ∧ t.dat = dat) := by
  unfold t_find at h
  rcases hfind : s.timers.find? (idMatch fn dat) with _ | t0
  · rw [hfind] at h
    intro t ht hc
    rcases List.mem_append.mp ht with ht | ht
    · have := List.find?_eq_none.mp hfind t ht
      simp [idMatch, hc.1, hc.2] at this
    · have := List.find?_eq_none.mp h t ht
      simp [idMatch, hc.1, hc.2] at this
  · rw [hfind] at h
    cases h

theorem perm_cons_filter {t : Timer} {l : List Timer}
    (hnd : (l.map Timer.tid).Nodup) (ht : t ∈ l) :
    l.Perm (t :: l.filter (fun x => x.tid ≠ t.tid)) := by
  induction l with
  | nil => cases ht
  | cons x xs ih =>
      simp only [List.map_cons, List.nodup_cons] at hnd
      rcases List.mem_cons.mp ht with rfl | ht
      · have hxs : xs.filter (fun x => x.tid ≠ t.tid) = xs := by
          refine List.filter_eq_self.mpr ?_
          intro a ha
          simp only [ne_eq, decide_not, Bool.not_eq_true', decide_eq_false_iff_not]
          intro hc
          exact hnd.1 (hc ▸ List.mem_map_of_mem Timer.tid ha)
        have hcons : (t :: xs).filter (fun x => x.tid ≠ t.tid) = xs := by
          rw [List.filter_cons, if_neg (by simp), hxs]
        rw [hcons]
      · have hx : x.tid ≠ t.tid := by
          intro hc
          exact hnd.1 (hc ▸ List.mem_map_of_mem Timer.tid ht)
        have h1 : (x :: xs).Perm (x :: t :: xs.filter (fun x => x.tid ≠ t.tid)) :=
          (ih hnd.2 ht).cons x
        have h2 : (x :: t :: xs.filter (fun x => x.tid ≠ t.tid)).Perm
            (t :: x :: xs.filter (fun x => x.tid ≠ t.tid)) := List.Perm.swap _ _ _
        have h3 : t :: x :: xs.filter (fun x => x.tid ≠ t.tid) =
            t :: (x :: xs).filter (fun x => x.tid ≠ t.tid) := by
          rw [List.filter_cons, if_pos (by simp [hx])]
        exact h3 ▸ (h1.trans h2)

/-- The wakeup computed by the existing-timer branch of
`libt_add_timeoutx` (src/libt.c:146-163). -/
def updWakeup (now w : ℚ) (flags : Flags) (old : ℚ) : ℚ :=
  if flags.rep then (if old + w < now then now + w else old + w)
  else if flags.rel then w + now
  else w

theorem add_eq_nan (now : ℚ) (fn dat : Nat) (flags : Flags) (s : LibtState) :
    libt_add_timeoutx now none fn dat flags s = (-EINVAL, s) := rfl

theorem add_eq_noent {fn dat : Nat} {flags : Flags} {s : LibtState} (now w : ℚ)
    (hfind : t_find fn dat s = none) (hadd : flags.add = false) :
    libt_add_timeoutx now (some w) fn dat flags s = (-ENOENT, s) := by
  simp [libt_add_timeoutx, hfind, hadd]

theorem add_eq_new {fn dat : Nat} {flags : Flags} {s : LibtState} (now w : ℚ)
    (hfind : t_find fn dat s = none) (hadd : flags.add = true) :
    libt_add_timeoutx now (some w) fn dat flags s =
      (0, { s with
              timers := t_add_sorted
                ⟨s.nextId, fn, dat, if flags.rel || flags.rep then w + now else w⟩
                s.timers,
              nextId := s.nextId + 1 }) := by
  simp [libt_add_timeoutx, hfind, hadd]

theorem add_eq_eperm {fn dat : Nat} {flags : Flags} {s : LibtState} {t : Timer} (now w : ℚ)
    (hfind : t_find fn dat s = some t) (hmod : flags.mod = false) :
    libt_add_timeoutx now (some w) fn dat flags s = (-EPERM, s) := by
  simp [libt_add_timeoutx, hfind, hmod]

theorem add_eq_upd {fn dat : Nat} {flags : Flags} {s : LibtState} {t : Timer} (now w : ℚ)
    (hfind : t_find fn dat s = some t) (hmod : flags.mod = true) :
    libt_add_timeoutx now (some w) fn dat flags s =
      (0, { s with
              timers := t_add_sorted { t with wakeup := updWakeup now w flags t.wakeup }
                (t_remove t.tid s.timers),
              tmptimers := t_remove t.tid s.tmptimers }) := by
  simp only [libt_add_timeoutx, hfind, hmod, Bool.not_true, Bool.false_eq_true, if_false,
    updWakeup]

/-- After a successful update, the whole tracked collection is, up to
permutation, the updated record consed onto everything but the old record. -/
theorem upd_allTimers_perm {fn dat : Nat} {flags : Flags} {s : LibtState} {t : Timer}
    (now w : ℚ) (hfind : t_find fn dat s = some t) (hmod : flags.mod = true) :
    (allTimers (libt_add_timeoutx now (some w) fn dat flags s).2).Perm
      ({ t with wakeup := updWakeup now w flags t.wakeup } ::
        (allTimers s).filter (fun x => x.tid ≠ t.tid)) := by
  rw [add_eq_upd now w hfind hmod]
  show (t_add_sorted _ (t_remove t.tid s.timers) ++ t_remove t.tid s.tmptimers).Perm _
  refine ((t_add_sorted_perm _ _).append_right _).trans ?_
  rw [List.cons_append]
  refine List.Perm.cons _ ?_
  rw [t_remove, t_remove, ← List.filter_append]
  exact List.Perm.refl _

theorem inv_add (now : ℚ) (w : Option ℚ) (fn dat : Nat) (flags : Flags) {s : LibtState}
    (h : Inv s) : Inv (libt_add_timeoutx now w fn dat flags s).2 := by
  obtain ⟨hid, htid, hbd, hsort⟩ := h
  match w with
  | none => exact ⟨hid, htid, hbd, hsort⟩
  | some w =>
    rcases hfind : t_find fn dat s with _ | t
    · rcases hadd : flags.add with _ | _
      · rw [add_eq_noent now w hfind hadd]
        exact ⟨hid, htid, hbd, hsort⟩
      · rw [add_eq_new now w hfind hadd]
        set tNew : Timer :=
          ⟨s.nextId, fn, dat, if flags.rel || flags.rep then w + now else w⟩ with htNew
        have hperm : (t_add_sorted tNew s.timers ++ s.tmptimers).Perm (tNew :: allTimers s) :=
          ((t_add_sorted_perm tNew s.timers).append_right s.tmptimers).trans
            (by rw [List.cons_append]; exact List.Perm.refl _)
        refine ⟨?_, ?_, ?_, ?_⟩
        · refine ((hperm.map idKey).nodup_iff).mpr ?_
          rw [List.map_cons, List.nodup_cons]
          refine ⟨?_, hid⟩
          intro hc
          rcases List.mem_map.mp hc with ⟨u, hu, hku⟩
          have := t_find_none hfind u hu
          simp only [idKey, htNew] at hku
          exact this ⟨(Prod.mk.injEq _ _ _ _ ▸ hku).1, (Prod.mk.injEq _ _ _ _ ▸ hku).2⟩
        · refine ((hperm.map Timer.tid).nodup_iff).mpr ?_
          rw [List.map_cons, List.nodup_cons]
          refine ⟨?_, htid⟩
          intro hc
          rcases List.mem_map.mp hc with ⟨u, hu, hku⟩
          have hb : tNew.tid < s.nextId := hku ▸ hbd u hu
          simp [htNew] at hb
        · intro u hu
          rcases List.mem_cons.mp (hperm.mem_iff.mp hu) with rfl | hu
          · exact Nat.lt_succ_self _
          · exact Nat.lt_succ_of_lt (hbd u hu)
        · exact t_add_sorted_sorted _ _ hsort
    · rcases hmod : flags.mod with _ | _
      · rw [add_eq_eperm now w hfind hmod]
        exact ⟨hid, htid, hbd, hsort⟩
      · obtain ⟨htmem, hfn, hdat⟩ := t_find_some hfind
        have hperm := upd_allTimers_perm now w hfind hmod
        have hold := perm_cons_filter htid htmem
        have hkey : idKey { t with wakeup := updWakeup now w flags t.wakeup } = idKey t := rfl
        have htid' : Timer.tid { t with wakeup := updWakeup now w flags t.wakeup } = t.tid := rfl
        have hOldNew : ((allTimers (libt_add_timeoutx now (some w) fn dat flags s).2).map
            idKey).Perm ((allTimers s).map idKey) := by
          refine (hperm.map idKey).trans ?_
          exact (hold.map idKey).symm
        have hOldNewTid : ((allTimers (libt_add_timeoutx now (some w) fn dat flags s).2).map
            Timer.tid).Perm ((allTimers s).map Timer.tid) := by
          refine (hperm.map Timer.tid).trans ?_
          exact (hold.map Timer.tid).symm
        refine ⟨hOldNew.nodup_iff.mpr hid, hOldNewTid.nodup_iff.mpr htid, ?_, ?_⟩
        · intro u hu
          rw [add_eq_upd now w hfind hmod] at hu ⊢
          rcases List.mem_cons.mp (hperm.mem_iff.mp (by
              rw [add_eq_upd now w hfind hmod] at hperm ⊢; exact hu)) with rfl | hu'
          · exact hbd t htmem
          · exact hbd u (List.mem_of_mem_filter hu')
        · rw [add_eq_upd now w hfind hmod]
          refine t_add_sorted_sorted _ _ ?_
          exact List.Pairwise.sublist (List.filter_sublist _) hsort

theorem inv_remove (fn dat : Nat) {s : LibtState} (h : Inv s) :
    Inv (libt_remove_timeout fn dat s) := by
  obtain ⟨hid, htid, hbd, hsort⟩ := h
  unfold libt_remove_timeout
  rcases hfind : t_find fn dat s with _ | t
  · exact ⟨hid, htid, hbd, hsort⟩
  · have hsub : (t_remove t.tid s.timers ++ t_remove t.tid s.tmptimers).Sublist
        (allTimers s) := by
      rw [t_remove, t_remove]
      exact (List.filter_sublist _).append (List.filter_sublist _)
    refine ⟨?_, ?_, ?_, ?_⟩
    · exact List.Nodup.sublist (hsub.map idKey) hid
    · exact List.Nodup.sublist (hsub.map Timer.tid) htid
    · intro u hu
      exact hbd u (hsub.mem hu)
    · exact List.Pairwise.sublist (List.filter_sublist _) hsort

theorem inv_applyAct {s : LibtState} (h : Inv s) (a : Act) : Inv (applyAct s a) := by
  cases a with
  | schedule now w fn dat flags => exact inv_add now w fn dat flags h
  | cancel fn dat => exact inv_remove fn dat h

theorem inv_runActs {s : LibtState} (h : Inv s) (acts : List Act) : Inv (runActs s acts) := by
  induction acts generalizing s with
  | nil => exact h
  | cons a acts ih => exact ih (inv_applyAct h a)

/-- Moving the due head from Pending to the front of InFlight keeps the
state well-formed. -/
theorem inv_flush_move {s : LibtState} {t : Timer} {rest : List Timer} (h : Inv s)
    (hts : s.timers = t :: rest) :
    Inv { s with timers := rest, tmptimers := t :: s.tmptimers } := by
  obtain ⟨hid, htid, hbd, hsort⟩ := h
  have hperm : (rest ++ t :: s.tmptimers).Perm (allTimers s) := by
    rw [allTimers, hts]
    exact List.perm_middle
  refine ⟨(hperm.map idKey).nodup_iff.mpr hid, (hperm.map Timer.tid).nodup_iff.mpr htid,
    ?_, ?_⟩
  · intro u hu
    exact hbd u (hperm.mem_iff.mp hu)
  · rw [hts] at hsort
    exact List.Pairwise.of_cons hsort

theorem inv_flush_loop (env : Env) (now : ℚ) :
    ∀ (fuel : Nat) (s : LibtState) (cnt : Nat) (tr : List TraceEntry), Inv s →
      Inv (libt_flush_loop env now fuel s cnt tr).2.1 := by
  intro fuel
  induction fuel with
  | zero => intro s cnt tr h; exact h
  | succ fuel ih =>
      intro s cnt tr h
      rcases hts : s.timers with _ | ⟨t, rest⟩
      · simp only [libt_flush_loop, hts]
        exact h
      · simp only [libt_flush_loop, hts]
        split
        · exact h
        · exact ih _ _ _ (inv_runActs (inv_flush_move h hts) _)

theorem inv_flush (env : Env) (now : ℚ) (fuel : Nat) {s : LibtState} (h : Inv s) :
    Inv (libt_flush env now fuel s).2.1 := by
  obtain ⟨hid, htid, hbd, hsort⟩ := inv_flush_loop env (now + 1/1000) fuel s 0 [] h
  have hsub : ((libt_flush_loop env (now + 1/1000) fuel s 0 []).2.1.timers ++
      ([] : List Timer)).Sublist (allTimers (libt_flush_loop env (now + 1/1000) fuel s 0 []).2.1) := by
    rw [List.append_nil, allTimers]
    exact List.sublist_append_left _ _
  refine ⟨List.Nodup.sublist (hsub.map idKey) hid,
    List.Nodup.sublist (hsub.map Timer.tid) htid, ?_, hsort⟩
  intro u hu
  exact hbd u (hsub.mem hu)

theorem inv_runOp {s : LibtState} (h : Inv s) (op : Op) : Inv (runOp s op) := by
  cases op with
  | schedule now w fn dat flags => exact inv_add now w fn dat flags h
  | cancel fn dat => exact inv_remove fn dat h
  | flush env now fuel => exact inv_flush env now fuel h

theorem inv_init : Inv initState := by
  refine ⟨?_, ?_, ?_, ?_⟩ <;> simp [initState, allTimers, timersSorted]

/-- Every state reachable by any sequence of API calls is well-formed. -/
theorem inv_run (ops : List Op) : Inv (run ops) := by
  have : ∀ (l : List Op) (s : LibtState), Inv s → Inv (l.foldl runOp s) := by
    intro l
    induction l with
    | nil => intro s h; exact h
    | cons op l ih => intro s h; exact ih _ (inv_runOp h op)
  exact this ops initState inv_init

/-- The dispatch loop exits at once when Pending is empty, whatever the
fuel. -/
theorem flush_loop_empty (env : Env) (now : ℚ) (fuel : Nat) (s : LibtState) (cnt : Nat)
    (tr : List TraceEntry) (h : s.timers = []) :
    libt_flush_loop env now fuel s cnt tr = (cnt, s, tr) := by
  cases fuel with
  | zero => rfl
  | succ fuel => simp [libt_flush_loop, h]

/-- "Due" with respect to the flush reference time. -/
def dueBy (now : ℚ) (t : Timer) : Bool := t.wakeup ≤ now

/-- The ghost trace a flush produces when its callbacks perform no queue
operations: one entry per due timer, in queue order, whose recorded state
is the one right after the Pending → InFlight move. -/
def inertTrace (now : ℚ) : List Timer → List Timer → Nat → List Nat → List TraceEntry
  | [], _, _, _ => []
  | t :: rest, tmp, nid, fr =>
      if t.wakeup ≤ now then
        ⟨t.fn, t.dat, ⟨rest, t :: tmp, nid, fr⟩⟩ :: inertTrace now rest (t :: tmp) nid fr
      else []

theorem flush_loop_inert {env : Env} (henv : ∀ f d st, env f d st = []) (now : ℚ) :
    ∀ (l : List Timer) (fuel : Nat), l.length ≤ fuel →
      ∀ (tmp : List Timer) (nid : Nat) (fr : List Nat) (cnt : Nat) (tr : List TraceEntry),
      libt_flush_loop env now fuel ⟨l, tmp, nid, fr⟩ cnt tr =
        (cnt + (l.takeWhile (dueBy now)).length,
         ⟨l.dropWhile (dueBy now), (l.takeWhile (dueBy now)).reverse ++ tmp, nid, fr⟩,
         tr ++ inertTrace now l tmp nid fr) := by
  intro l
  induction l with
  | nil =>
      intro fuel hfuel tmp nid fr cnt tr
      cases fuel with
      | zero => simp [libt_flush_loop, inertTrace]
      | succ fuel => simp [libt_flush_loop, inertTrace]
  | cons t rest ih =>
      intro fuel hfuel tmp nid fr cnt tr
      cases fuel with
      | zero => simp at hfuel
      | succ fuel =>
          simp only [List.length_cons, Nat.succ_le_succ_iff] at hfuel
          by_cases hdue : t.wakeup ≤ now
          · simp only [libt_flush_loop]
            rw [if_neg (not_lt.mpr hdue), henv]
            show libt_flush_loop env now fuel ⟨rest, t :: tmp, nid, fr⟩ (cnt + 1) _ = _
            refine (ih fuel hfuel (t :: tmp) nid fr (cnt + 1) _).trans ?_
            simp only [List.takeWhile_cons, List.dropWhile_cons, dueBy, hdue,
              decide_True, if_true, decide_eq_true_eq]
            rw [inertTrace, if_pos hdue]
            simp only [Prod.mk.injEq, List.length_cons, List.reverse_cons,
              List.append_assoc, List.singleton_append]
            exact ⟨by omega, trivial⟩
          · simp only [libt_flush_loop]
            rw [if_pos (not_le.mp hdue)]
            rw [inertTrace, if_neg hdue]
            simp [dueBy, hdue, List.takeWhile_cons, List.dropWhile_cons]

theorem inertTrace_ids (now : ℚ) :
    ∀ (l tmp : List Timer) (nid : Nat) (fr : List Nat),
      (inertTrace now l tmp nid fr).map (fun e => (e.fn, e.dat)) =
        (l.takeWhile (dueBy now)).map idKey := by
  intro l
  induction l with
  | nil => intro tmp nid fr; simp [inertTrace]
  | cons t rest ih =>
      intro tmp nid fr
      by_cases hdue : t.wakeup ≤ now
      · simp [inertTrace, if_pos hdue, List.takeWhile_cons, dueBy, hdue, idKey, ih]
      · simp [inertTrace, if_neg hdue, List.takeWhile_cons, dueBy, hdue]

theorem inertTrace_inflight (now : ℚ) :
    ∀ (l tmp : List Timer) (nid : Nat) (fr : List Nat), (l.map Timer.tid).Nodup →
      ∀ e ∈ inertTrace now l tmp nid fr, ∃ t : Timer,
        e.stAt.tmptimers.head? = some t ∧ t.fn = e.fn ∧ t.dat = e.dat ∧
          t ∉ e.stAt.timers := by
  intro l
  induction l with
  | nil => intro tmp nid fr _ e he; simp [inertTrace] at he
  | cons t rest ih =>
      intro tmp nid fr hnd e he
      simp only [List.map_cons, List.nodup_cons] at hnd
      by_cases hdue : t.wakeup ≤ now
      · rw [inertTrace, if_pos hdue] at he
        rcases List.mem_cons.mp he with rfl | he
        · refine ⟨t, rfl, rfl, rfl, ?_⟩
          intro hc
          exact hnd.1 (List.mem_map_of_mem Timer.tid hc)
        · exact ih (t :: tmp) nid fr hnd.2 e he
      · rw [inertTrace, if_neg hdue] at he
        cases he

theorem sorted_takeWhile_eq_filter (now : ℚ) :
    ∀ l : List Timer, timersSorted l → l.takeWhile (dueBy now) = l.filter (dueBy now) := by
  intro l
  induction l with
  | nil => intro _; rfl
  | cons t rest ih =>
      intro hsort
      rcases hsort with _ | ⟨ht, hrest⟩
      rw [List.takeWhile_cons, List.filter_cons]
      by_cases hdue : t.wakeup ≤ now
      · simp [dueBy, hdue, ih hrest]
      · have hrestnone : rest.filter (dueBy now) = [] := by
          refine List.filter_eq_nil_iff.mpr ?_
          intro u hu
          simp only [dueBy, decide_eq_true_eq]
          intro hc
          exact hdue (le_trans (ht u hu) hc)
        simp [dueBy, hdue, hrestnone]

theorem sorted_dropWhile_eq_filter (now : ℚ) :
    ∀ l : List Timer, timersSorted l →
      l.dropWhile (dueBy now) = l.filter (fun t => !dueBy now t) := by
  intro l
  induction l with
  | nil => intro _; rfl
  | cons t rest ih =>
      intro hsort
      rcases hsort with _ | ⟨ht, hrest⟩
      rw [List.dropWhile_cons, List.filter_cons]
      by_cases hdue : t.wakeup ≤ now
      · simp [dueBy, hdue, ih hrest]
      · have hrestall : rest.filter (fun u => !decide (u.wakeup ≤ now)) = rest := by
          refine List.filter_eq_self.mpr ?_
          intro u hu
          simp only [Bool.not_eq_true', decide_eq_false_iff_not]
          intro hc
          exact hdue (le_trans (ht u hu) hc)
        simp [dueBy, hdue, hrestall]

/-- A callback environment whose callbacks perform no queue operations. -/
def inertEnv : Env := fun _ _ _ => []

/-- CREATE-only registration flags (LIBT_ADD alone). -/
def addFlags : Flags := ⟨true, false, false, false⟩

/-- CREATE|UPDATE registration flags (LIBT_ADD | LIBT_MOD). -/
def cuFlags : Flags := ⟨true, true, false, false⟩

/-- CREATE|UPDATE|REPEAT registration flags. -/
def repFlags : Flags := ⟨true, true, false, true⟩

/-- Three pending timers due at t = 1, 2, 3 (distinct identities). -/
def s123 : LibtState := ⟨[⟨0, 0, 0, 1⟩, ⟨1, 1, 1, 2⟩, ⟨2, 2, 2, 3⟩], [], 3, []⟩

/-- A callback that re-registers its own identity with REPEAT and period 5;
its clock reading at the moment of the call is 2.5. -/
def envRepeat5 : Env := fun fn dat _ => [Act.schedule (5/2) (some 5) fn dat repFlags]

/-- A callback that cancels its own identity. -/
def envCancelSelf : Env := fun fn dat _ => [Act.cancel fn dat]

/-- C1.  For every (well-formed) queue state and every call to flush whose
callbacks perform no queue operations, flush invokes exactly the callbacks
of the timers whose wakeup is at most `now + 0.001`, in queue order, each
moved from Pending to InFlight (front of `tmptimers`) before its
invocation, and returns the number of callbacks invoked; in particular,
with timers due at t = 1, 2, 3 and flush called at t = 2.5, exactly the two
callbacks due at 1 and 2 fire, in that order, and `libt_next_wakeup`
afterwards returns 3. -/
theorem flush_runs_exactly_due_timers_in_order :
    (∀ (s : LibtState) (env : Env) (now : ℚ) (fuel : Nat),
      timersSorted s.timers →
      (s.timers.map Timer.tid).Nodup →
      (∀ f d st, env f d st = []) →
      s.timers.length ≤ fuel →
      (libt_flush env now fuel s).1 =
        (s.timers.filter (dueBy (now + 1/1000))).length ∧
      ((libt_flush env now fuel s).2.2.map fun e => (e.fn, e.dat)) =
        (s.timers.filter (dueBy (now + 1/1000))).map idKey ∧
      (∀ e ∈ (libt_flush env now fuel s).2.2, ∃ t : Timer,
        e.stAt.tmptimers.head? = some t ∧ t.fn = e.fn ∧ t.dat = e.dat ∧
          t ∉ e.stAt.timers) ∧
      (libt_flush env now fuel s).2.1.timers =
        s.timers.filter (fun t => !dueBy (now + 1/1000) t)) ∧
    ((libt_flush inertEnv (5/2) 3 s123).1 = 2 ∧
     ((libt_flush inertEnv (5/2) 3 s123).2.2.map fun e => (e.fn, e.dat)) =
       [(0, 0), (1, 1)] ∧
     libt_next_wakeup (libt_flush inertEnv (5/2) 3 s123).2.1 = 3) := by
  constructor
  · intro s env now fuel hsort hnd henv hfuel
    obtain ⟨l, tmp, nid, fr⟩ := s
    simp only at hsort hnd hfuel
    simp only [libt_flush, flush_loop_inert henv (now + 1/1000) l fuel hfuel tmp nid fr 0 [],
      List.nil_append, Nat.zero_add]
    refine ⟨?_, ?_, ?_, ?_⟩
    · rw [sorted_takeWhile_eq_filter _ _ hsort]
    · rw [inertTrace_ids, sorted_takeWhile_eq_filter _ _ hsort]
    · intro e he
      exact inertTrace_inflight (now + 1/1000) l tmp nid fr hnd e he
    · exact sorted_dropWhile_eq_filter _ _ hsort
  · refine ⟨?_, ?_, ?_⟩
    · norm_num [libt_flush, libt_flush_loop, s123, inertEnv, runActs, libt_next_wakeup]
    · norm_num [libt_flush, libt_flush_loop, s123, inertEnv, runActs, libt_next_wakeup]
    · norm_num [libt_flush, libt_flush_loop, s123, inertEnv, runActs, libt_next_wakeup]

/-- Witness for C1: the general flush characterisation applied to the
concrete three-timer state. -/
theorem flush_runs_exactly_due_timers_in_order_witness :
    (libt_flush inertEnv (5/2) 3 s123).1 =
      (s123.timers.filter (dueBy (5/2 + 1/1000))).length :=
  (flush_runs_exactly_due_timers_in_order.1 s123 inertEnv (5/2) 3
    (by norm_num [s123, timersSorted]) (by norm_num [s123]) (fun _ _ _ => rfl)
    (by norm_num [s123])).1

/-- C2.  For every sequence of schedule/cancel/flush calls the Pending
collection is sorted by `wakeup` non-decreasing at every observation point,
and each insertion scans until the first strictly greater element and
inserts before it (hence timers with equal wakeup keep their relative
insertion order). -/
theorem pending_sorted_and_insert_before_first_greater :
    (∀ ops : List Op, timersSorted (run ops).timers) ∧
    (∀ (t : Timer) (l : List Timer),
      t_add_sorted t l =
        l.takeWhile (fun x => !decide (t.wakeup < x.wakeup)) ++
          t :: l.dropWhile (fun x => !decide (t.wakeup < x.wakeup))) := by
  constructor
  · intro ops
    exact (inv_run ops).2.2.2
  · exact t_add_sorted_position

/-- C3.  In every reachable state at most one timer exists per
`(callback, data)` identity, across Pending and InFlight together; and a
schedule with CREATE|UPDATE flags against an existing identity succeeds,
allocates no new record (the allocation counter and the multiset of record
ids are unchanged — the existing record is updated in place), and
uniqueness still holds afterwards. -/
theorem unique_identity_and_update_in_place :
    (∀ ops : List Op, ((allTimers (run ops)).map idKey).Nodup) ∧
    (∀ (ops : List Op) (now w : ℚ) (fn dat : Nat) (flags : Flags),
      flags.add = true → flags.mod = true →
      libt_timeout_exist fn dat (run ops) = true →
      (libt_add_timeoutx now (some w) fn dat flags (run ops)).1 = 0 ∧
      (libt_add_timeoutx now (some w) fn dat flags (run ops)).2.nextId =
        (run ops).nextId ∧
      ((allTimers (libt_add_timeoutx now (some w) fn dat flags (run ops)).2).map
        Timer.tid).Perm ((allTimers (run ops)).map Timer.tid) ∧
      ((allTimers (libt_add_timeoutx now (some w) fn dat flags (run ops)).2).map
        idKey).Nodup) := by
  constructor
  · intro ops
    exact (inv_run ops).1
  · intro ops now w fn dat flags hadd hmod hex
    rcases hfind : t_find fn dat (run ops) with _ | t
    · rw [libt_timeout_exist, hfind] at hex
      cases hex
    · obtain ⟨hid, htid, hbd, hsort⟩ := inv_run ops
      have hup := add_eq_upd now w hfind hmod
      refine ⟨by rw [hup], by rw [hup], ?_, ?_⟩
      · have hperm := upd_allTimers_perm now w hfind hmod
        have hold := perm_cons_filter htid (t_find_some hfind).1
        refine (hperm.map Timer.tid).trans ?_
        exact (hold.map Timer.tid).symm
      · exact (inv_add now (some w) fn dat flags (inv_run ops)).1

/-- Witness for C3: schedule identity (0,0) once, then schedule it again
with CREATE|UPDATE; the second call succeeds and allocates nothing. -/
theorem unique_identity_and_update_in_place_witness :
    (libt_add_timeoutx 0 (some 5) 0 0 cuFlags
      (run [Op.schedule 0 (some 3) 0 0 addFlags])).1 = 0 ∧
    (libt_add_timeoutx 0 (some 5) 0 0 cuFlags
      (run [Op.schedule 0 (some 3) 0 0 addFlags])).2.nextId =
      (run [Op.schedule 0 (some 3) 0 0 addFlags]).nextId := by
  have h := unique_identity_and_update_in_place.2
    [Op.schedule 0 (some 3) 0 0 addFlags] 0 5 0 0 cuFlags rfl rfl
    (by norm_num [run, runOp, initState, libt_add_timeoutx, t_find, t_add_sorted,
      libt_timeout_exist, idMatch, addFlags])
  exact ⟨h.1, h.2.1⟩

/-- C4.  Updating an existing timer with the REPEAT flag sets the new
wakeup to old wakeup + increment, except that a sum earlier than the
current time is reset to `now + increment`; consequently a callback that
reschedules its own identity with REPEAT and period 5 during flush ends
with exactly one timer, whose wakeup is `original + 5` (here `1 + 5 = 6`),
or `now + 5 = 7.5` when `original + 5` lies in the past. -/
theorem repeat_update_semantics :
    (∀ (now w : ℚ) (fn dat : Nat) (s : LibtState) (t : Timer) (flags : Flags),
      t_find fn dat s = some t → flags.mod = true → flags.rep = true →
      (libt_add_timeoutx now (some w) fn dat flags s).1 = 0 ∧
      ∃ t' ∈ (libt_add_timeoutx now (some w) fn dat flags s).2.timers,
        t'.tid = t.tid ∧ t'.fn = t.fn ∧ t'.dat = t.dat ∧
        t'.wakeup = if t.wakeup + w < now then now + w else t.wakeup + w) ∧
    (libt_flush envRepeat5 (5/2) 2 ⟨[⟨0, 0, 0, 1⟩], [], 1, []⟩).2.1 =
      ⟨[⟨0, 0, 0, 6⟩], [], 1, []⟩ ∧
    (libt_flush envRepeat5 (5/2) 2 ⟨[⟨0, 0, 0, -10⟩], [], 1, []⟩).2.1 =
      ⟨[⟨0, 0, 0, 15/2⟩], [], 1, []⟩ := by
  refine ⟨?_, ?_, ?_⟩
  · intro now w fn dat s t flags hfind hmod hrep
    rw [add_eq_upd now w hfind hmod]
    refine ⟨rfl, ⟨{ t with wakeup := updWakeup now w flags t.wakeup }, ?_, rfl, rfl, rfl, ?_⟩⟩
    · exact (t_add_sorted_perm _ _).mem_iff.mpr (List.mem_cons_self _ _)
    · rw [updWakeup, if_pos hrep]
  · norm_num [libt_flush, libt_flush_loop, envRepeat5, runActs, applyAct,
      libt_add_timeoutx, t_find, idMatch, t_remove, t_add_sorted, repFlags]
  · norm_num [libt_flush, libt_flush_loop, envRepeat5, runActs, applyAct,
      libt_add_timeoutx, t_find, idMatch, t_remove, t_add_sorted, repFlags]

/-- Witness for C4: the REPEAT-update rule applied to the single pending
timer with wakeup 1, increment 5, now = 2.5. -/
theorem repeat_update_semantics_witness :
    (libt_add_timeoutx (5/2) (some 5) 0 0 repFlags ⟨[⟨0, 0, 0, 1⟩], [], 1, []⟩).1 = 0 :=
  (repeat_update_semantics.1 (5/2) 5 0 0 ⟨[⟨0, 0, 0, 1⟩], [], 1, []⟩ ⟨0, 0, 0, 1⟩ repFlags
    (by norm_num [t_find, idMatch]) rfl rfl).1

/-- Counterexample to C5.  A timer (record id 0, wakeup 1) whose callback
re-registers its own identity during a flush at t = 2.5: contrary to the
claim, the re-registration does not create a fresh Pending entry with an
InFlight remnant that the terminal cleanup frees — the terminal cleanup
frees nothing (the `freed` log stays empty), the surviving Pending entry is
the very same record (id 0), and no new record is allocated (the
allocation counter is still 1). -/
theorem reregister_no_inflight_remnant_cex :
    (libt_flush envRepeat5 (5/2) 2 ⟨[⟨0, 0, 0, 1⟩], [], 1, []⟩).2.1.freed = [] ∧
    (libt_flush envRepeat5 (5/2) 2 ⟨[⟨0, 0, 0, 1⟩], [], 1, []⟩).2.1.timers.map Timer.tid
      = [0] ∧
    (libt_flush envRepeat5 (5/2) 2 ⟨[⟨0, 0, 0, 1⟩], [], 1, []⟩).2.1.nextId = 1 := by
  norm_num [libt_flush, libt_flush_loop, envRepeat5, runActs, applyAct,
    libt_add_timeoutx, t_find, idMatch, t_remove, t_add_sorted, repFlags]

/-- C5 (amended).  When a callback re-registers its own identity during a
flush pass, the update relinks the very same record (same ghost id, same
identity) from InFlight back into Pending: no remnant of it stays InFlight,
so the terminal cleanup has nothing of it to free — in the concrete
self-rescheduling scenario the flush frees nothing at all and the identity
still exists afterwards. -/
theorem reregister_relinks_same_record :
    (∀ (now w : ℚ) (fn dat : Nat) (s : LibtState) (t : Timer) (flags : Flags),
      flags.mod = true → t_find fn dat s = some t →
      t.tid ∉ ((libt_add_timeoutx now (some w) fn dat flags s).2.tmptimers.map Timer.tid) ∧
      ∃ t' ∈ (libt_add_timeoutx now (some w) fn dat flags s).2.timers,
        t'.tid = t.tid ∧ t'.fn = t.fn ∧ t'.dat = t.dat) ∧
    ((libt_flush envRepeat5 (5/2) 2 ⟨[⟨0, 0, 0, 1⟩], [], 1, []⟩).2.1.freed = [] ∧
     libt_timeout_exist 0 0 (libt_flush envRepeat5 (5/2) 2
       ⟨[⟨0, 0, 0, 1⟩], [], 1, []⟩).2.1 = true) := by
  constructor
  · intro now w fn dat s t flags hmod hfind
    rw [add_eq_upd now w hfind hmod]
    constructor
    · intro hc
      rcases List.mem_map.mp hc with ⟨u, hu, hku⟩
      have := List.of_mem_filter hu
      simp only [decide_eq_true_eq] at this
      exact this hku
    · exact ⟨{ t with wakeup := updWakeup now w flags t.wakeup },
        (t_add_sorted_perm _ _).mem_iff.mpr (List.mem_cons_self _ _), rfl, rfl, rfl⟩
  · norm_num [libt_flush, libt_flush_loop, envRepeat5, runActs, applyAct,
      libt_add_timeoutx, t_find, idMatch, t_remove, t_add_sorted, repFlags,
      libt_timeout_exist]

/-- Witness for C5 (amended): the relink rule applied to a record that is
InFlight (the mid-flush configuration of the counterexample scenario). -/
theorem reregister_relinks_same_record_witness :
    (0 : Nat) ∉ ((libt_add_timeoutx (5/2) (some 5) 0 0 repFlags
      ⟨[], [⟨0, 0, 0, 1⟩], 1, []⟩).2.tmptimers.map Timer.tid) :=
  ((reregister_relinks_same_record.1 (5/2) 5 0 0 ⟨[], [⟨0, 0, 0, 1⟩], 1, []⟩
    ⟨0, 0, 0, 1⟩ repFlags rfl (by norm_num [t_find, idMatch])).1)

/-- C6.  A callback that cancels its own identity while it executes during
flush: afterwards the timer no longer exists, the flush still reports one
invocation, and the record was freed exactly once (by the cancel itself;
the terminal InFlight sweep frees nothing further — the ghost `freed` log
of the whole flush is exactly `[tid]`). -/
theorem cancel_self_during_flush :
    ∀ (fn dat tid nid : Nat) (w now : ℚ) (fuel : Nat),
      w ≤ now + 1/1000 → 1 ≤ fuel →
      (libt_flush envCancelSelf now fuel ⟨[⟨tid, fn, dat, w⟩], [], nid, []⟩).1 = 1 ∧
      libt_timeout_exist fn dat
        (libt_flush envCancelSelf now fuel ⟨[⟨tid, fn, dat, w⟩], [], nid, []⟩).2.1 = false ∧
      (libt_flush envCancelSelf now fuel
        ⟨[⟨tid, fn, dat, w⟩], [], nid, []⟩).2.1.freed = [tid] := by
  intro fn dat tid nid w now fuel hw hfuel
  cases fuel with
  | zero => omega
  | succ fuel =>
      have hstep : runActs ⟨[], [⟨tid, fn, dat, w⟩], nid, []⟩
          (envCancelSelf fn dat ⟨[], [⟨tid, fn, dat, w⟩], nid, []⟩) =
          ⟨[], [], nid, [tid]⟩ := by
        simp [envCancelSelf, runActs, applyAct, libt_remove_timeout, t_find, idMatch,
          t_remove]
      simp only [libt_flush, libt_flush_loop]
      rw [if_neg (not_lt.mpr hw)]
      show (libt_flush_loop envCancelSelf (now + 1/1000) fuel
        (runActs ⟨[], [⟨tid, fn, dat, w⟩], nid, []⟩ _) 1 _).1 = 1 ∧ _ ∧ _
      rw [hstep, flush_loop_empty _ _ _ _ _ _ rfl]
      refine ⟨rfl, ?_, rfl⟩
      simp [libt_timeout_exist, t_find]

/-- Witness for C6 at a concrete input (timer due at 1, flush at 2.5). -/
theorem cancel_self_during_flush_witness :
    (libt_flush envCancelSelf (5/2) 2 ⟨[⟨7, 3, 4, 1⟩], [], 8, []⟩).2.1.freed = [7] :=
  (cancel_self_during_flush 3 4 7 8 1 (5/2) 2 (by norm_num) (by norm_num)).2.2

/-- C7.  `libt_add_timeoutx` fails exactly as specified and leaves the
state unchanged on every failure: a NaN wakeup always fails with
`-EINVAL`; a request without UPDATE (in particular CREATE-only) against an
existing identity fails with `-EPERM` (PermissionDenied); a request
without CREATE (in particular UPDATE-only) against a missing identity
fails with `-ENOENT` (NotFound); in all other cases it returns 0. -/
theorem schedule_error_cases :
    (∀ (now : ℚ) (fn dat : Nat) (flags : Flags) (s : LibtState),
      libt_add_timeoutx now none fn dat flags s = (-EINVAL, s)) ∧
    (∀ (now w : ℚ) (fn dat : Nat) (flags : Flags) (s : LibtState),
      t_find fn dat s = none → flags.add = false →
      libt_add_timeoutx now (some w) fn dat flags s = (-ENOENT, s)) ∧
    (∀ (now w : ℚ) (fn dat : Nat) (flags : Flags) (s : LibtState) (t : Timer),
      t_find fn dat s = some t → flags.mod = false →
      libt_add_timeoutx now (some w) fn dat flags s = (-EPERM, s)) ∧
    (∀ (now w : ℚ) (fn dat : Nat) (flags : Flags) (s : LibtState),
      (t_find fn dat s = none → flags.add = true →
        (libt_add_timeoutx now (some w) fn dat flags s).1 = 0) ∧
      (∀ t : Timer, t_find fn dat s = some t → flags.mod = true →
        (libt_add_timeoutx now (some w) fn dat flags s).1 = 0)) := by
  refine ⟨add_eq_nan, ?_, ?_, ?_⟩
  · intro now w fn dat flags s hfind hadd
    exact add_eq_noent now w hfind hadd
  · intro now w fn dat flags s t hfind hmod
    exact add_eq_eperm now w hfind hmod
  · intro now w fn dat flags s
    constructor
    · intro hfind hadd
      rw [add_eq_new now w hfind hadd]
    · intro t hfind hmod
      rw [add_eq_upd now w hfind hmod]

/-- Witness for C7: UPDATE-only against the empty state fails with
`-ENOENT` and leaves the state unchanged; CREATE-only against an occupied
identity fails with `-EPERM`. -/
theorem schedule_error_cases_witness :
    libt_add_timeoutx 0 (some 5) 0 0 ⟨false, true, false, false⟩ initState =
      (-ENOENT, initState) ∧
    libt_add_timeoutx 0 (some 5) 0 0 addFlags ⟨[⟨0, 0, 0, 3⟩], [], 1, []⟩ =
      (-EPERM, ⟨[⟨0, 0, 0, 3⟩], [], 1, []⟩) :=
  ⟨schedule_error_cases.2.1 0 5 0 0 ⟨false, true, false, false⟩ initState rfl rfl,
   schedule_error_cases.2.2.1 0 5 0 0 addFlags ⟨[⟨0, 0, 0, 3⟩], [], 1, []⟩ ⟨0, 0, 0, 3⟩
     (by norm_num [t_find, idMatch]) rfl⟩

/-- One pending timer due 1.5 ms from now (at clock 0). -/
def sWait : LibtState := ⟨[⟨0, 0, 0, 3/2000⟩], [], 1, []⟩

/-- Counterexample to C8.  With the next wakeup 1.5 ms away,
`libt_get_waittime` returns 1 (the C `double → int` return conversion
truncates), while the claimed formula `round((next_wakeup - now) * 1000)`
gives 2. -/
theorem waittime_truncates_not_rounds_cex :
    libt_get_waittime 0 sWait = 1 ∧
    round ((libt_next_wakeup sWait - 0) * 1000) = 2 := by
  constructor
  · norm_num [libt_get_waittime, sWait, cTrunc, MAXRESULT]
  · norm_num [libt_next_wakeup, sWait, round_eq]

/-- C8 (amended).  `libt_get_waittime` returns -1 iff Pending is empty;
otherwise it returns `(next_wakeup - now) * 1000` truncated to an integer
(floor, not round), with non-positive values collapsed to 0 and the result
clamped above at `MAXRESULT = (2^32 - 1) / 4 = 1073741823` (the library's
conservative quarter-of-`~0U` cap against wait-type overflow). -/
theorem waittime_formula :
    (∀ (now : ℚ) (s : LibtState), (libt_get_waittime now s = -1 ↔ s.timers = [])) ∧
    (∀ (now : ℚ) (s : LibtState),
      libt_get_waittime now s =
        match s.timers with
        | [] => -1
        | t :: _ => max 0 (min MAXRESULT ⌊(t.wakeup - now) * 1000⌋)) := by
  have hmain : ∀ (now : ℚ) (s : LibtState), libt_get_waittime now s =
      match s.timers with
      | [] => -1
      | t :: _ => max 0 (min MAXRESULT ⌊(t.wakeup - now) * 1000⌋) := by
    intro now s
    rcases hts : s.timers with _ | ⟨t, rest⟩
    · simp [libt_get_waittime, hts]
    · simp only [libt_get_waittime, hts]
      by_cases h0 : (t.wakeup - now) * 1000 ≤ 0
      · rw [if_pos h0]
        have hfl : ⌊(t.wakeup - now) * 1000⌋ ≤ 0 := Int.floor_nonpos h0
        rw [min_eq_right (le_trans hfl (by norm_num [MAXRESULT]))]
        exact (max_eq_left hfl).symm
      · rw [if_neg h0]
        push_neg at h0
        by_cases hM : (t.wakeup - now) * 1000 > ((MAXRESULT : ℤ) : ℚ)
        · rw [if_pos hM]
          have hge : (MAXRESULT : ℤ) ≤ ⌊(t.wakeup - now) * 1000⌋ := Int.le_floor.mpr hM.le
          rw [min_eq_left hge]
          exact (max_eq_right (by norm_num [MAXRESULT])).symm
        · rw [if_neg hM]
          push_neg at hM
          have hfl0 : 0 ≤ ⌊(t.wakeup - now) * 1000⌋ := Int.floor_nonneg.mpr h0.le
          have hflM : ⌊(t.wakeup - now) * 1000⌋ ≤ MAXRESULT := by
            have h1 := Int.floor_le_floor hM
            rwa [Int.floor_intCast] at h1
          rw [cTrunc, if_neg (not_lt.mpr h0.le), min_eq_right hflM, max_eq_right hfl0]
  refine ⟨?_, hmain⟩
  intro now s
  constructor
  · intro hm
    rcases hts : s.timers with _ | ⟨t, rest⟩
    · rfl
    · exfalso
      have h1 := hmain now s
      rw [hts] at h1
      have h3 : libt_get_waittime now s =
          max 0 (min MAXRESULT ⌊(t.wakeup - now) * 1000⌋) := h1
      rw [hm] at h3
      have h2 : (0 : ℤ) ≤ max 0 (min MAXRESULT ⌊(t.wakeup - now) * 1000⌋) := le_max_left _ _
      rw [← h3] at h2
      norm_num at h2
  · intro h
    simp [libt_get_waittime, h]

/-- Counterexample to C10.  The library places no lower bound on absolute
wakeups: scheduling identity (0,0) with absolute wakeup -1 reaches a state
whose Pending queue is non-empty yet `libt_next_wakeup` returns -1 — the
sentinel is not distinguishable from a valid wakeup, contrary to the
claim's "always non-negative" justification. -/
theorem next_wakeup_sentinel_cex :
    (run [Op.schedule 0 (some (-1)) 0 0 addFlags]).timers ≠ [] ∧
    libt_next_wakeup (run [Op.schedule 0 (some (-1)) 0 0 addFlags]) = -1 := by
  norm_num [run, runOp, initState, libt_add_timeoutx, t_find, t_add_sorted, addFlags,
    libt_next_wakeup]

/-- C10 (amended).  `libt_next_wakeup` returns the sentinel -1 when Pending
is empty, and otherwise the head timer's wakeup, which under the sortedness
invariant is the minimum pending wakeup; -1 is distinguishable from every
valid wakeup only under the additional assumption that all pending wakeups
are non-negative (true when they derive from the monotonic clock, but not
enforced by the library for absolute schedules). -/
theorem next_wakeup_head_minimum :
    ∀ s : LibtState,
      (s.timers = [] → libt_next_wakeup s = -1) ∧
      (s.timers ≠ [] → libt_next_wakeup s ∈ s.timers.map Timer.wakeup) ∧
      (timersSorted s.timers → ∀ t ∈ s.timers, libt_next_wakeup s ≤ t.wakeup) ∧
      ((∀ t ∈ s.timers, 0 ≤ t.wakeup) → s.timers ≠ [] → libt_next_wakeup s ≠ -1) := by
  intro s
  have hnw : ∀ t rest, s.timers = t :: rest → libt_next_wakeup s = t.wakeup := by
    intro t rest h
    simp [libt_next_wakeup, h]
  rcases hts : s.timers with _ | ⟨t, rest⟩
  · refine ⟨fun _ => by simp [libt_next_wakeup, hts], ?_, ?_, ?_⟩
    · intro h
      exact absurd rfl h
    · intro _ u hu
      simp at hu
    · intro _ h
      exact absurd rfl h
  · have hw := hnw t rest hts
    refine ⟨fun h => by simp at h, ?_, ?_, ?_⟩
    · intro _
      rw [hw]
      simp
    · intro hsort u hu
      rw [hw]
      rcases List.mem_cons.mp hu with rfl | hu
      · exact le_refl _
      · rcases hsort with _ | ⟨hhead, _⟩
        exact hhead u hu
    · intro hpos _
      have h0 : (0 : ℚ) ≤ t.wakeup := hpos t (List.mem_cons_self _ _)
      rw [hw]
      intro hc
      rw [hc] at h0
      norm_num at h0

/-- Witness for C10 (amended) at a concrete sorted two-timer state. -/
theorem next_wakeup_head_minimum_witness :
    libt_next_wakeup ⟨[⟨0, 0, 0, 2⟩, ⟨1, 1, 1, 5⟩], [], 2, []⟩ ≠ -1 :=
  (next_wakeup_head_minimum ⟨[⟨0, 0, 0, 2⟩, ⟨1, 1, 1, 5⟩], [], 2, []⟩).2.2.2
    (by norm_num) (List.cons_ne_nil _ _)

theorem cTrunc_of_nonneg {q : ℚ} (h : 0 ≤ q) : cTrunc q = ⌊q⌋ :=
  if_neg (not_lt.mpr h)

theorem cfmod_eq_fract {x y : ℚ} (hx : 0 ≤ x) (hy : 0 < y) :
    cfmod x y = y * Int.fract (x / y) := by
  rw [cfmod, cTrunc_of_nonneg (div_nonneg hx hy.le), Int.fract]
  field_simp

theorem cfmod_nonneg {x y : ℚ} (hx : 0 ≤ x) (hy : 0 < y) : 0 ≤ cfmod x y := by
  rw [cfmod_eq_fract hx hy]
  exact mul_nonneg hy.le (Int.fract_nonneg _)

theorem cfmod_int_mul_add {i p : ℚ} (n : ℤ) (hn : 0 ≤ n) (hi : 0 < i) (hp : 0 ≤ p)
    (hpi : p < i) : cfmod (i * n + p) i = p := by
  have hn' : (0 : ℚ) ≤ (n : ℚ) := by exact_mod_cast hn
  have harg : (0 : ℚ) ≤ i * n + p := add_nonneg (mul_nonneg hi.le hn') hp
  rw [cfmod_eq_fract harg hi]
  have hdiv : (i * n + p) / i = (n : ℚ) + p / i := by
    field_simp
    ring
  rw [hdiv, Int.fract_int_add,
    Int.fract_eq_self.mpr ⟨div_nonneg hp hi.le, (div_lt_one hi).mpr hpi⟩]
  field_simp

/-- One evaluation step of `libt_timetointerval4` in the small-interval
branch when the computed delay is not below the (already-floored) pad. -/
theorem t2i_step_simple (g : ℤ → ℤ) (fuel : Nat) (wt i off pad : ℚ)
    (hilt : i < 5400) (hpad : 1/1000 ≤ pad)
    (hok : pad ≤ i - cfmod (wt - off) i) :
    libt_timetointerval4 g (fuel + 1) wt i off pad =
      some (i - cfmod (wt - off) i) := by
  have h54 : ¬(i ≥ 3600 * (3/2 : ℚ)) := by
    have he : (3600 * (3/2 : ℚ)) = 5400 := by norm_num
    rw [he]
    exact not_le.mpr hilt
  simp only [libt_timetointerval4]
  rw [if_neg (not_lt.mpr hpad), if_neg h54, if_neg (not_lt.mpr hok)]

/-- C9.  `libt_timetointerval4(3600, 3600, 0, 0.001) = 3600`; for intervals
below 1.5 hours (5400 s) the delay is plain modular arithmetic
`interval - fmod(walltime - offset, interval)` with no timezone
adjustment, and when that delay falls below the pad (floored at 1 ms) the
function skips forward exactly one more interval. -/
theorem timetointerval_small_interval :
    (∀ g : ℤ → ℤ, libt_timetointerval4 g 1 3600 3600 0 (1/1000) = some 3600) ∧
    (∀ (g : ℤ → ℤ) (fuel : Nat) (wt i off pad : ℚ),
      i < 5400 → 1/1000 ≤ pad → pad ≤ i - cfmod (wt - off) i →
      libt_timetointerval4 g (fuel + 1) wt i off pad =
        some (i - cfmod (wt - off) i)) ∧
    (∀ (g : ℤ → ℤ) (fuel : Nat) (wt i off pad : ℚ),
      i < 5400 → 1/1000 ≤ pad → 2 * pad ≤ i → 0 ≤ wt - off →
      i - cfmod (wt - off) i < pad →
      libt_timetointerval4 g (fuel + 2) wt i off pad =
        some ((i - cfmod (wt - off) i) + i)) := by
  refine ⟨?_, t2i_step_simple, ?_⟩
  · intro g
    norm_num [libt_timetointerval4, cfmod, cTrunc]
  · intro g fuel wt i off pad hilt hpad hp2 hx hvp
    have hpadpos : (0 : ℚ) < pad := lt_of_lt_of_le (by norm_num) hpad
    have hi : (0 : ℚ) < i := lt_of_lt_of_le (by linarith) hp2
    have hpi : pad < i := lt_of_lt_of_le (by linarith) hp2
    have h54 : ¬(i ≥ 3600 * (3/2 : ℚ)) := by
      have he : (3600 * (3/2 : ℚ)) = 5400 := by norm_num
      rw [he]
      exact not_le.mpr hilt
    have hfl0 : (0 : ℤ) ≤ ⌊(wt - off) / i⌋ := Int.floor_nonneg.mpr (div_nonneg hx hi.le)
    have hdecomp : wt + (i - cfmod (wt - off) i) + pad - off =
        i * ((⌊(wt - off) / i⌋ : ℤ) + 1 : ℤ) + pad := by
      rw [cfmod, cTrunc_of_nonneg (div_nonneg hx hi.le)]
      push_cast
      ring
    have hinner : cfmod (wt + (i - cfmod (wt - off) i) + pad - off) i = pad := by
      rw [hdecomp]
      exact cfmod_int_mul_add _ (by omega) hi hpadpos.le hpi
    have hstep := t2i_step_simple g fuel (wt + (i - cfmod (wt - off) i) + pad) i off pad
      hilt hpad (by rw [hinner]; linarith)
    rw [hinner] at hstep
    rw [libt_timetointerval4]
    rw [if_neg (not_lt.mpr hpad), if_neg h54, if_pos hvp, hstep]
    simp only [Option.some.injEq]
    ring

/-- Witness for C9: the modular-arithmetic rule at walltime 100, interval
60, offset 0 (delay 20 s to the next minute boundary). -/
theorem timetointerval_small_interval_witness :
    libt_timetointerval4 (fun _ => 0) 1 100 60 0 (1/1000) =
      some (60 - cfmod (100 - 0) 60) :=
  timetointerval_small_interval.2.1 (fun _ => 0) 0 100 60 0 (1/1000) (by norm_num)
    (le_refl _) (by norm_num [cfmod, cTrunc])

end Libt
